import Mathlib

/-!
Verification of the request-parameter translation and pagination layer of
`server/api/helpers.go` (navidrome). The Go functions `toQueryOptions`,
`toSortParams`, `apiErrorHandler` and `buildPaginationLinksAndMeta` are
embedded as executable Lean functions; strings are handled through their
character lists so that every definition evaluates inside the kernel.
Go's `int32` arithmetic is modelled by `Int` together with explicit
wrap-around at 2^31, and Go panics (nil-pointer dereference, division by
zero, out-of-range indexing) are modelled by `Option`.
-/

namespace NavidromeAPI

/-- Go `unicode.IsSpace`: the White_Space code points recognised by the Go
standard library (`\t`, `\n`, `\v`, `\f`, `\r`, space, NEL, NBSP and the
Unicode space separators). -/
def isSpaceChar (c : Char) : Bool :=
  let n := c.toNat
  n == 9 || n == 10 || n == 11 || n == 12 || n == 13 || n == 32 ||
  n == 0x85 || n == 0xA0 || n == 0x1680 || (0x2000 ≤ n && n ≤ 0x200A) ||
  n == 0x2028 || n == 0x2029 || n == 0x202F || n == 0x205F || n == 0x3000

/-- Go `strings.TrimSpace` acting on the character list of a string:
drop leading and trailing white space. -/
def trimSpace (cs : List Char) : List Char :=
  ((cs.dropWhile isSpaceChar).reverse.dropWhile isSpaceChar).reverse

/-- Go `strings.Split(s, ",")` acting on the character list of a string:
split at every comma; `Split("", ",")` yields one empty token. -/
def splitComma : List Char → List (List Char)
  | [] => [[]]
  | c :: rest =>
    if c = ',' then [] :: splitComma rest
    else
      match splitComma rest with
      | [] => [[c]]
      | t :: ts => (c :: t) :: ts

/-- The regular expression `[a-zA-Z0-9_\-]` of `validSortPattern` in
`helpers.go`, applied to a single character. -/
def validSortChar (c : Char) : Bool :=
  c.isAlpha || c.isDigit || c == '_' || c == '-'

/-- The loop body of `toSortParams` in `helpers.go`: trim each token, skip
empty tokens, reject a token whose first character is outside the allowed
charset, and render `-field` as `"field desc"` and any other token as
`"token asc"`. -/
def processSortCols : List (List Char) → Except String (List String)
  | [] => Except.ok []
  | col :: rest =>
    match trimSpace col with
    | [] => processSortCols rest
    | c :: cs =>
      if validSortChar c then
        match processSortCols rest with
        | Except.error e => Except.error e
        | Except.ok rs =>
          Except.ok
            ((if c = '-' then String.mk (trimSpace cs) ++ " desc"
              else String.mk (c :: cs) ++ " asc") :: rs)
      else Except.error ("invalid sort parameter: " ++ String.mk (c :: cs))

/-- Go `toSortParams` from `helpers.go`: `nil` or empty input compiles to the
empty sort; otherwise the comma-separated tokens are processed by
`processSortCols` and joined with commas. -/
def toSortParams (sort : Option String) : Except String String :=
  match sort with
  | none => Except.ok ""
  | some s =>
    if s = "" then Except.ok ""
    else (processSortCols (splitComma s.data)).map (String.intercalate ",")

/-- Go `strings.SplitN(f, ":", 2)` acting on the character list of a string:
the part before the first colon, and — when a colon exists — the whole
remainder after it. -/
def splitN2 : List Char → List Char × Option (List Char)
  | [] => ([], none)
  | c :: rest =>
    if c = ':' then ([], some rest)
    else
      let p := splitN2 rest
      (c :: p.1, p.2)

/-- The squirrel SQL clauses constructed by `toQueryOptions`; `or` is
squirrel's disjunction combinator, which `toQueryOptions` never uses. -/
inductive Sqlizer where
  | eq (field value : String)
  | like (field pattern : String)
  | gt (field value : String)
  | gtOrEq (field value : String)
  | lt (field value : String)
  | ltOrEq (field value : String)
  | or (clauses : List Sqlizer)

/-- Whether a clause is squirrel's `Or` combinator. -/
def Sqlizer.isOr : Sqlizer → Bool
  | Sqlizer.or _ => true
  | _ => false

def opEquals (f v : String) : Sqlizer := Sqlizer.eq f v
def opContains (f v : String) : Sqlizer := Sqlizer.like f ("%" ++ v ++ "%")
def opStartsWith (f v : String) : Sqlizer := Sqlizer.like f (v ++ "%")
def opEndsWith (f v : String) : Sqlizer := Sqlizer.like f ("%" ++ v)
def opGreaterThan (f v : String) : Sqlizer := Sqlizer.gt f v
def opGreaterOrEqual (f v : String) : Sqlizer := Sqlizer.gtOrEq f v
def opLessThan (f v : String) : Sqlizer := Sqlizer.lt f v
def opLessOrEqual (f v : String) : Sqlizer := Sqlizer.ltOrEq f v

/-- One iteration of the `parseFilter` closure in `toQueryOptions`: split the
raw token at the first colon and feed both parts to the clause constructor.
A token with no colon makes the Go code index `parts[1]` out of range
(a panic), modelled as `none`. -/
def parseFilterToken (op : String → String → Sqlizer) (f : String) : Option Sqlizer :=
  match splitN2 f.data with
  | (_, none) => none
  | (fst, some snd) => some (op (String.mk fst) (String.mk snd))

/-- The `parseFilter` closure of `toQueryOptions`: a `nil` list contributes no
clauses, otherwise each raw token is parsed in list order. -/
def parseFilterList (op : String → String → Sqlizer) (fs : Option (List String)) :
    Option (List Sqlizer) :=
  match fs with
  | none => some []
  | some l => go l
where
  go : List String → Option (List Sqlizer)
    | [] => some []
    | f :: rest =>
      match parseFilterToken op f, go rest with
      | some c, some cs => some (c :: cs)
      | _, _ => none

/-- Go `model.QueryOptions` restricted to the fields set by
`toQueryOptions`; `Filters` carries the `squirrel.And` conjunction as the
ordered list of its clauses. -/
structure QueryOptions where
  Max : Int
  Offset : Int
  Filters : List Sqlizer
  Sort' : String

/-- The parameter struct handed to `toQueryOptions` and
`buildPaginationLinksAndMeta` (Go `GetTracksParams`): eight optional filter
families, optional sort, include and page parameters. -/
structure GetTracksParams where
  FilterEquals : Option (List String) := none
  FilterContains : Option (List String) := none
  FilterStartsWith : Option (List String) := none
  FilterEndsWith : Option (List String) := none
  FilterGreaterThan : Option (List String) := none
  FilterGreaterOrEqual : Option (List String) := none
  FilterLessThan : Option (List String) := none
  FilterLessOrEqual : Option (List String) := none
  Sort' : Option String := none
  Include : Option String := none
  PageOffset : Option Int := none
  PageLimit : Option Int := none

/-- Go helper `v[T]` from `helpers.go`: dereference a pointer, yielding the
zero value on `nil`. -/
def vOpt (p : Option Int) : Int := p.getD 0

/-- Go `toQueryOptions` from `helpers.go`: parse the eight filter families in
source order into one conjunction, default absent page parameters to zero,
and degrade an invalid sort parameter to the empty sort (the error is only
logged). A filter token without a colon panics in Go, hence `Option`. -/
def toQueryOptions (params : GetTracksParams) : Option QueryOptions :=
  (parseFilterList opEquals params.FilterEquals).bind fun f1 =>
  (parseFilterList opContains params.FilterContains).bind fun f2 =>
  (parseFilterList opStartsWith params.FilterStartsWith).bind fun f3 =>
  (parseFilterList opEndsWith params.FilterEndsWith).bind fun f4 =>
  (parseFilterList opGreaterThan params.FilterGreaterThan).bind fun f5 =>
  (parseFilterList opGreaterOrEqual params.FilterGreaterOrEqual).bind fun f6 =>
  (parseFilterList opLessThan params.FilterLessThan).bind fun f7 =>
  (parseFilterList opLessOrEqual params.FilterLessOrEqual).bind fun f8 =>
  some
    { Max := vOpt params.PageLimit
      Offset := vOpt params.PageOffset
      Filters := f1 ++ f2 ++ f3 ++ f4 ++ f5 ++ f6 ++ f7 ++ f8
      Sort' := (toSortParams params.Sort').toOption.getD "" }

/-- Reduction of an arbitrary integer into the two's-complement `int32`
range, the overflow behaviour Go defines for its signed arithmetic. -/
def wrap32 (n : Int) : Int := (n + 2 ^ 31) % 2 ^ 32 - 2 ^ 31

/-- Go `int32` addition. -/
def i32add (a b : Int) : Int := wrap32 (a + b)

/-- Go `int32` subtraction. -/
def i32sub (a b : Int) : Int := wrap32 (a - b)

/-- Go `int32` multiplication. -/
def i32mul (a b : Int) : Int := wrap32 (a * b)

/-- Go `int32` division: truncated towards zero, a run-time panic on a zero
divisor (modelled as `none`), and `MinInt32 / -1` wraps back to `MinInt32`. -/
def i32div (a b : Int) : Option Int :=
  if b = 0 then none else some (wrap32 (Int.tdiv a b))

/-- The UTF-8 bytes of one character, as Go ranges over the bytes of a
string. -/
def utf8Bytes (c : Char) : List Nat :=
  let n := c.toNat
  if n < 0x80 then [n]
  else if n < 0x800 then [0xC0 + n / 0x40, 0x80 + n % 0x40]
  else if n < 0x10000 then [0xE0 + n / 0x1000, 0x80 + n / 0x40 % 0x40, 0x80 + n % 0x40]
  else [0xF0 + n / 0x40000, 0x80 + n / 0x1000 % 0x40, 0x80 + n / 0x40 % 0x40, 0x80 + n % 0x40]

/-- Upper-case hexadecimal digit, as used by Go `net/url` percent-escaping. -/
def upperHexDigit (n : Nat) : Char :=
  if n < 10 then Char.ofNat (48 + n) else Char.ofNat (55 + n)

/-- Percent-escape one byte: `%XX` with upper-case hex. -/
def percentByte (b : Nat) : List Char :=
  ['%', upperHexDigit (b / 16), upperHexDigit (b % 16)]

/-- The characters Go `url.QueryEscape` leaves unescaped
(RFC 3986 unreserved). -/
def unreservedQueryChar (c : Char) : Bool :=
  c.isAlpha || c.isDigit || c == '-' || c == '_' || c == '.' || c == '~'

/-- Go `url.QueryEscape` on a character list: unreserved bytes kept, space
becomes `+`, every other byte percent-escaped. -/
def queryEscapeChars : List Char → List Char
  | [] => []
  | c :: rest =>
    (if unreservedQueryChar c then [c]
     else if c = ' ' then ['+']
     else ((utf8Bytes c).map percentByte).flatten) ++ queryEscapeChars rest

/-- Go `url.QueryEscape`. -/
def queryEscape (s : String) : String := String.mk (queryEscapeChars s.data)

/-- Byte-wise (here: code-point-wise) lexicographic order on strings, as Go
`sort.Strings` compares the keys of `url.Values.Encode`. -/
def charListLt : List Char → List Char → Bool
  | [], [] => false
  | [], _ :: _ => true
  | _ :: _, [] => false
  | a :: as, b :: bs =>
    if a.toNat < b.toNat then true
    else if a.toNat = b.toNat then charListLt as bs
    else false

/-- Insert one key/values pair into a key-sorted association list. -/
def insertByKey (p : String × List String) :
    List (String × List String) → List (String × List String)
  | [] => [p]
  | q :: rest =>
    if charListLt q.1.data p.1.data then q :: insertByKey p rest
    else p :: q :: rest

/-- Sort an association list by key, as `url.Values.Encode` sorts its keys. -/
def sortByKey : List (String × List String) → List (String × List String)
  | [] => []
  | p :: rest => insertByKey p (sortByKey rest)

/-- Go `url.Values.Encode`: keys in sorted order, each value rendered as
`escapedKey=escapedValue`, joined with `&`. -/
def encodeValues (q : List (String × List String)) : String :=
  String.intercalate "&"
    (((sortByKey q).map fun kv =>
        kv.2.map fun value => queryEscape kv.1 ++ "=" ++ queryEscape value).flatten)

/-- One optional filter family of the `addFilterParams` closure in
`buildPaginationLinksAndMeta`: a `nil` list adds no entry, otherwise each
value becomes its own entry under the family's parameter name (an empty
list performs no `Add`, so the key stays absent). -/
def filterEntry (name : String) (v : Option (List String)) :
    List (String × List String) :=
  match v with
  | none => []
  | some [] => []
  | some vs => [(name, vs)]

/-- The `url.Values` accumulated by the `buildLink` closure of
`buildPaginationLinksAndMeta`, in the order the Go code issues `Add`
calls: page window first, then the eight filter families, then sort and
include. The encoded offset is the `int32` product `page * pageLimit`. -/
def linkQueryValues (params : GetTracksParams) (pageLimit page : Int) :
    List (String × List String) :=
  [("page[offset]", [toString (i32mul page pageLimit)]),
   ("page[limit]", [toString pageLimit])]
  ++ filterEntry "filter[equals]" params.FilterEquals
  ++ filterEntry "filter[contains]" params.FilterContains
  ++ filterEntry "filter[lessThan]" params.FilterLessThan
  ++ filterEntry "filter[lessOrEqual]" params.FilterLessOrEqual
  ++ filterEntry "filter[greaterThan]" params.FilterGreaterThan
  ++ filterEntry "filter[greaterOrEqual]" params.FilterGreaterOrEqual
  ++ filterEntry "filter[startsWith]" params.FilterStartsWith
  ++ filterEntry "filter[endsWith]" params.FilterEndsWith
  ++ (match params.Sort' with | none => [] | some s => [("sort", [s])])
  ++ (match params.Include with | none => [] | some s => [("include", [s])])

/-- The `buildLink` closure of `buildPaginationLinksAndMeta`: the resource
path, plus `?` and the encoded query when the query is non-empty. -/
def buildLink (params : GetTracksParams) (resourceName : String)
    (pageLimit page : Int) : String :=
  let query := linkQueryValues params pageLimit page
  if query.length > 0 then resourceName ++ "?" ++ encodeValues query
  else resourceName

/-- Go `PaginationMeta` (pointer fields). -/
structure PaginationMeta where
  CurrentPage : Option Int
  TotalItems : Option Int
  TotalPages : Option Int

/-- Go `PaginationLinks` (pointer fields; `none` is an absent link). -/
structure PaginationLinks where
  First : Option String
  Last : Option String
  Next : Option String
  Prev : Option String

/-- Go `buildPaginationLinksAndMeta` from `helpers.go`. The function
dereferences `params.PageLimit` and `params.PageOffset` unconditionally and
divides by the page limit, so an absent page parameter or a zero limit is a
run-time panic, modelled as `none`. All arithmetic is `int32`. -/
def buildPaginationLinksAndMeta (totalItems : Int) (params : GetTracksParams)
    (resourceName : String) : Option (PaginationLinks × PaginationMeta) :=
  match params.PageLimit, params.PageOffset with
  | some pageLimit, some pageOffset =>
    match i32div (i32sub (i32add totalItems pageLimit) 1) pageLimit,
          i32div pageOffset pageLimit with
    | some totalPages, some offsetDiv =>
      let currentPage := i32add offsetDiv 1
      let meta : PaginationMeta :=
        { CurrentPage := some currentPage
          TotalItems := some totalItems
          TotalPages := some totalPages }
      let first :=
        if 0 < totalPages then some (buildLink params resourceName pageLimit 0)
        else none
      let last :=
        if 0 < totalPages then
          some (buildLink params resourceName pageLimit (i32sub totalPages 1))
        else none
      let next :=
        if currentPage < totalPages then
          some (buildLink params resourceName pageLimit currentPage)
        else none
      let prev :=
        if 1 < currentPage then
          some (buildLink params resourceName pageLimit (i32sub currentPage 2))
        else none
      some ({ First := first, Last := last, Next := next, Prev := prev }, meta)
    | _, _ => none
  | _, _ => none

/-- The error categories distinguished by `apiErrorHandler` through
`errors.Is`: `model.ErrNotAuthorized`, `model.ErrNotFound`, and every other
error. -/
inductive ApiError where
  | notAuthorized
  | notFound
  | other

/-- Go `ErrorObject` (pointer fields). -/
structure ErrorObject where
  Status : Option String
  Title : Option String
  Detail : Option String

/-- Go helper `p[T]` from `helpers.go` at type `string`: `nil` for the zero
value, a pointer to the value otherwise. -/
def pStr (s : String) : Option String := if s = "" then none else some s

/-- `http.StatusText` of the Go standard library, restricted to the status
codes `apiErrorHandler` uses. -/
def statusText (code : Nat) : String :=
  if code = 403 then "Forbidden"
  else if code = 404 then "Not Found"
  else if code = 500 then "Internal Server Error"
  else ""

/-- The observable effect of `apiErrorHandler`: the content type and numeric
status written to the response, and the encoded `ErrorList` body. -/
structure ApiErrorResponse where
  contentType : String
  statusCode : Nat
  body : List ErrorObject

/-- Go `apiErrorHandler` from `helpers.go`: map the error category to one
`ErrorObject`, set the JSON:API content type, and write status 403
unconditionally (`w.WriteHeader(403)`), whatever the mapped category. -/
def apiErrorHandler (err : ApiError) : ApiErrorResponse :=
  let res : ErrorObject :=
    match err with
    | ApiError.notAuthorized =>
      { Status := pStr (toString (403 : Nat)), Title := pStr (statusText 403)
        Detail := none }
    | ApiError.notFound =>
      { Status := pStr (toString (404 : Nat)), Title := pStr (statusText 404)
        Detail := none }
    | ApiError.other =>
      { Status := pStr (toString (500 : Nat)), Title := pStr (statusText 500)
        Detail := none }
  { contentType := "application/vnd.api+json", statusCode := 403, body := [res] }

/-- Association-list lookup among the accumulated query values, mirroring
indexing the Go `url.Values` map by key (each key occurs at most once in
the lists built by `linkQueryValues`). -/
def lookupKey (k : String) : List (String × List String) → Option (List String)
  | [] => none
  | kv :: rest => if k = kv.1 then some kv.2 else lookupKey k rest

/-- The twelve parameter names `buildLink` can place into a link's query. -/
def linkQueryKeys : List String :=
  ["page[offset]", "page[limit]", "filter[equals]", "filter[contains]",
   "filter[lessThan]", "filter[lessOrEqual]", "filter[greaterThan]",
   "filter[greaterOrEqual]", "filter[startsWith]", "filter[endsWith]",
   "sort", "include"]

/-- Rendering of one trimmed, non-empty sort token as the spec describes it:
a leading `-` gives `"<field> desc"` on the (trimmed) remainder, anything
else gives `"<token> asc"` on the exact token text. -/
def renderSortToken (t : List Char) : String :=
  if t.headD ' ' = '-' then String.mk (trimSpace t.tail) ++ " desc"
  else String.mk t ++ " asc"

/-- The spec's description of the compiled sort output for a valid sort
string: trim the comma-separated tokens, skip empty ones, render each and
join with commas in input order. To be compared with `toSortParams`. -/
def specSortRendering (s : String) : String :=
  String.intercalate ","
    ((((splitComma s.data).map trimSpace).filter (fun t => !t.isEmpty)).map
      renderSortToken)

/-- The clauses one filter family contributes, as the spec describes them:
one clause per raw value in list order, field and value split at the first
colon. To be compared with the clauses `toQueryOptions` accumulates. -/
def familyClauses (op : String → String → Sqlizer) (fs : Option (List String)) :
    List Sqlizer :=
  (fs.getD []).map fun t =>
    op (String.mk (splitN2 t.data).1) (String.mk (((splitN2 t.data).2).getD []))

/-- Concrete request parameters: page window 20/10 only. -/
def paramsOffset20 : GetTracksParams := { PageOffset := some 20, PageLimit := some 10 }

/-- Concrete request parameters: page window 0/10 only. -/
def paramsOffset0 : GetTracksParams := { PageOffset := some 0, PageLimit := some 10 }

/-- Concrete request parameters: limit 2, used at the `int32` overflow input. -/
def paramsLimit2 : GetTracksParams := { PageOffset := some 0, PageLimit := some 2 }

/-- Concrete request parameters with filters, sort and include present. -/
def paramsFull : GetTracksParams :=
  { FilterEquals := some ["artist:Queen"]
    FilterContains := some ["title:love"]
    Sort' := some "-year"
    Include := some "albums"
    PageOffset := some 0
    PageLimit := some 10 }

/-- Concrete request parameters whose sort string is invalid. -/
def paramsBadSort : GetTracksParams := { Sort' := some "$bad,title" }

theorem trimSpace_eq_nil {cs : List Char} (h : ∀ c ∈ cs, isSpaceChar c = true) :
    trimSpace cs = [] := by
  unfold trimSpace
  have h1 : cs.dropWhile isSpaceChar = [] := by
    rw [List.dropWhile_eq_nil_iff]
    exact fun a ha => h a ha
  rw [h1]
  rfl

theorem splitComma_ne_nil (cs : List Char) : splitComma cs ≠ [] := by
  induction cs with
  | nil => simp [splitComma]
  | cons c rest ih =>
    by_cases hc : c = ','
    · simp [splitComma, hc]
    · simp only [splitComma, if_neg hc]
      cases h : splitComma rest with
      | nil => simp
      | cons t ts => simp

theorem splitComma_mem_space {cs : List Char}
    (h : ∀ c ∈ cs, c = ',' ∨ isSpaceChar c = true) :
    ∀ col ∈ splitComma cs, ∀ c ∈ col, isSpaceChar c = true := by
  induction cs with
  | nil =>
    intro col hcol c hc
    simp only [splitComma, List.mem_singleton] at hcol
    subst hcol
    simp at hc
  | cons d rest ih =>
    intro col hcol c hc
    have hrest : ∀ c ∈ rest, c = ',' ∨ isSpaceChar c = true :=
      fun x hx => h x (List.mem_cons_of_mem _ hx)
    by_cases hdc : d = ','
    · simp only [splitComma, if_pos hdc] at hcol
      rcases List.mem_cons.mp hcol with rfl | hmem
      · simp at hc
      · exact ih hrest col hmem c hc
    · have hds : isSpaceChar d = true := by
        rcases h d (List.mem_cons_self d rest) with h1 | h1
        · exact absurd h1 hdc
        · exact h1
      simp only [splitComma, if_neg hdc] at hcol
      cases hsp : splitComma rest with
      | nil => exact absurd hsp (splitComma_ne_nil rest)
      | cons t ts =>
        rw [hsp] at hcol
        rcases List.mem_cons.mp hcol with rfl | hmem
        · rcases List.mem_cons.mp hc with rfl | hcm
          · exact hds
          · exact ih hrest t (hsp ▸ List.mem_cons_self t ts) c hcm
        · exact ih hrest col (hsp ▸ List.mem_cons_of_mem t hmem) c hc

theorem processSortCols_all_nil {cols : List (List Char)}
    (h : ∀ col ∈ cols, trimSpace col = []) :
    processSortCols cols = Except.ok [] := by
  induction cols with
  | nil => rfl
  | cons col rest ih =>
    have hcol := h col (List.mem_cons_self col rest)
    simp only [processSortCols, hcol]
    exact ih fun x hx => h x (List.mem_cons_of_mem _ hx)

/-- C10: the sort compiler treats an absent sort parameter, an empty sort
string, and a sort string consisting only of commas and/or whitespace
identically: each compiles to the empty sort with no error. -/
theorem c10_empty_sort_equivalence :
    toSortParams none = Except.ok "" ∧
    toSortParams (some "") = Except.ok "" ∧
    ∀ s : String, (∀ c ∈ s.data, c = ',' ∨ isSpaceChar c = true) →
      toSortParams (some s) = Except.ok "" := by
  refine ⟨rfl, rfl, ?_⟩
  intro s h
  by_cases hs : s = ""
  · subst hs; rfl
  · simp only [toSortParams, if_neg hs]
    have hok : processSortCols (splitComma s.data) = Except.ok [] :=
      processSortCols_all_nil fun col hcol =>
        trimSpace_eq_nil fun c hc => splitComma_mem_space h col hcol c hc
    rw [hok]
    rfl

theorem c10_witness : toSortParams (some " ,, ") = Except.ok "" :=
  c10_empty_sort_equivalence.2.2 " ,, " (by decide)

theorem splitN2_append {la : List Char} (lb : List Char) (h : ':' ∉ la) :
    splitN2 (la ++ ':' :: lb) = (la, some lb) := by
  induction la with
  | nil => simp [splitN2]
  | cons c cs ih =>
    have hc : ¬c = ':' := fun hh => h (hh ▸ List.mem_cons_self c cs)
    have hcs : ':' ∉ cs := fun hh => h (List.mem_cons_of_mem _ hh)
    simp [splitN2, hc, ih hcs]

/-- C4: a raw filter token containing a colon is split at the first colon
only: the clause constructor receives the substring strictly before the
first colon as the field and the entire remainder (possibly empty, possibly
containing further colons) as the value. -/
theorem c4_first_colon_split (op : String → String → Sqlizer) (a b : String)
    (h : ':' ∉ a.data) :
    parseFilterToken op (a ++ ":" ++ b) = some (op a b) := by
  obtain ⟨la⟩ := a
  obtain ⟨lb⟩ := b
  have hdata : (String.mk la ++ ":" ++ String.mk lb).data = la ++ ':' :: lb := by
    simp [String.data_append]
  simp only [parseFilterToken, hdata, splitN2_append lb h]

theorem c4_witness :
    parseFilterToken opEquals ("artist" ++ ":" ++ "Qu:een") =
      some (opEquals "artist" "Qu:een") :=
  c4_first_colon_split opEquals "artist" "Qu:een" (by decide)

/-- C7: the error formatter emits exactly one ErrorObject whose status/title
are 403/Forbidden, 404/Not Found or 500/Internal Server Error depending on
the category, sets the JSON:API content type, and writes the same numeric
response status 403 for all three categories. -/
theorem c7_error_formatter (e : ApiError) :
    (apiErrorHandler e).body.length = 1 ∧
    (apiErrorHandler e).contentType = "application/vnd.api+json" ∧
    (apiErrorHandler e).statusCode = 403 ∧
    (apiErrorHandler e).body =
      [match e with
       | ApiError.notAuthorized =>
         { Status := some "403", Title := some "Forbidden", Detail := none }
       | ApiError.notFound =>
         { Status := some "404", Title := some "Not Found", Detail := none }
       | ApiError.other =>
         { Status := some "500", Title := some "Internal Server Error",
           Detail := none }] := by
  cases e <;> exact ⟨rfl, rfl, rfl, rfl⟩

/-- C9: the pagination computer dereferences the page limit unconditionally,
so it fails when the page-limit parameter is absent; under the precondition
(limit present and positive, offset present) it always returns a result. -/
theorem c9_page_limit_precondition (params : GetTracksParams) (t : Int)
    (name : String) :
    (params.PageLimit = none → buildPaginationLinksAndMeta t params name = none) ∧
    (∀ l o, params.PageLimit = some l → params.PageOffset = some o → 0 < l →
      ∃ r, buildPaginationLinksAndMeta t params name = some r) := by
  constructor
  · intro h
    simp [buildPaginationLinksAndMeta, h]
  · intro l o hl ho hpos
    have hne : l ≠ 0 := by omega
    have hsome : (buildPaginationLinksAndMeta t params name).isSome = true := by
      simp [buildPaginationLinksAndMeta, hl, ho, i32div, hne]
    exact Option.isSome_iff_exists.mp hsome

theorem c9_witness :
    buildPaginationLinksAndMeta 0 {} "tracks" = none ∧
    ∃ r, buildPaginationLinksAndMeta 0 paramsOffset0 "tracks" = some r :=
  ⟨(c9_page_limit_precondition {} 0 "tracks").1 rfl,
   (c9_page_limit_precondition paramsOffset0 0 "tracks").2 10 0 rfl rfl
     (by decide)⟩

theorem processSortCols_invalid {cols : List (List Char)}
    (h : ∃ col ∈ cols,
      validSortChar ((trimSpace col).headD ' ') = false ∧ trimSpace col ≠ []) :
    ∃ t, t ∈ cols.map trimSpace ∧ t ≠ [] ∧ validSortChar (t.headD ' ') = false ∧
      processSortCols cols =
        Except.error ("invalid sort parameter: " ++ String.mk t) := by
  induction cols with
  | nil =>
    rcases h with ⟨col, hmem, _⟩
    simp at hmem
  | cons col rest ih =>
    cases htr : trimSpace col with
    | nil =>
      rcases h with ⟨col', hmem', hval', hne'⟩
      rcases List.mem_cons.mp hmem' with rfl | hmem'
      · exact absurd htr hne'
      · rcases ih ⟨col', hmem', hval', hne'⟩ with ⟨t, ht, h2, h3, h4⟩
        refine ⟨t, List.mem_cons_of_mem _ ht, h2, h3, ?_⟩
        simp only [processSortCols, htr]
        exact h4
    | cons c cs =>
      by_cases hv : validSortChar c = true
      · rcases h with ⟨col', hmem', hval', hne'⟩
        rcases List.mem_cons.mp hmem' with rfl | hmem'
        · rw [htr] at hval'
          simp at hval'
          exact absurd hv (by simp [hval'])
        · rcases ih ⟨col', hmem', hval', hne'⟩ with ⟨t, ht, h2, h3, h4⟩
          refine ⟨t, List.mem_cons_of_mem _ ht, h2, h3, ?_⟩
          simp only [processSortCols, htr, if_pos hv, h4]
      · refine ⟨c :: cs, ?_, by simp, by simpa using hv, ?_⟩
        · exact htr ▸ List.mem_map_of_mem trimSpace (List.mem_cons_self col rest)
        · simp only [processSortCols, htr, if_neg hv]

/-- C5 counterexample: a token with a leading `-` whose following character
is outside the allowed charset does NOT make the sort compiler fail — the
code validates only the token's first character and `-` itself is in the
charset, so `"-$bad"` compiles successfully to `"$bad desc"`. -/
theorem c5_counterexample :
    toSortParams (some "-$bad") = Except.ok "$bad desc" ∧
    ¬∃ e, toSortParams (some "-$bad") = Except.error e := by
  constructor
  · rfl
  · rintro ⟨e, he⟩
    rw [show toSortParams (some "-$bad") = Except.ok "$bad desc" from rfl] at he
    cases he

/-- C5 amended: if some comma-separated token, after trimming, is non-empty
with a first character outside `[A-Za-z0-9_-]`, the sort compiler fails with
an "invalid sort parameter" error naming such an offending trimmed token;
the caller `toQueryOptions` then proceeds with an empty sort in the query
descriptor instead of aborting. (Tokens whose invalid character follows a
leading `-` are not rejected, contrary to the original claim.) -/
theorem c5_invalid_sort_degrades (params : GetTracksParams) (s : String)
    (hs : params.Sort' = some s)
    (h : ∃ col ∈ splitComma s.data,
      validSortChar ((trimSpace col).headD ' ') = false ∧ trimSpace col ≠ []) :
    (∃ t, t ∈ (splitComma s.data).map trimSpace ∧ t ≠ [] ∧
        validSortChar (t.headD ' ') = false ∧
        toSortParams (some s) =
          Except.error ("invalid sort parameter: " ++ String.mk t)) ∧
    ∀ qo, toQueryOptions params = some qo → qo.Sort' = "" := by
  have hs_ne : s ≠ "" := by
    rintro rfl
    rcases h with ⟨col, hmem, _, hne⟩
    simp only [show ("" : String).data = [] from rfl, splitComma,
      List.mem_singleton] at hmem
    subst hmem
    exact hne rfl
  rcases processSortCols_invalid h with ⟨t, ht, hne, hval, herr⟩
  have herr' : toSortParams (some s) =
      Except.error ("invalid sort parameter: " ++ String.mk t) := by
    simp only [toSortParams, if_neg hs_ne, herr, Except.map]
  refine ⟨⟨t, ht, hne, hval, herr'⟩, ?_⟩
  intro qo hqo
  simp only [toQueryOptions, Option.bind_eq_some] at hqo
  obtain ⟨f1, -, f2, -, f3, -, f4, -, f5, -, f6, -, f7, -, f8, -, hq⟩ := hqo
  injection hq with hq
  subst hq
  simp only [hs, herr', Except.toOption, Option.getD]

theorem c5_witness :
    ((∃ t, t ∈ (splitComma ("$bad,title" : String).data).map trimSpace ∧
        t ≠ [] ∧ validSortChar (t.headD ' ') = false ∧
        toSortParams (some "$bad,title") =
          Except.error ("invalid sort parameter: " ++ String.mk t)) ∧
      ∀ qo, toQueryOptions paramsBadSort = some qo → qo.Sort' = "") ∧
    toSortParams (some "$bad,title") =
      Except.error "invalid sort parameter: $bad" :=
  ⟨c5_invalid_sort_degrades paramsBadSort "$bad,title" rfl (by decide), rfl⟩

theorem processSortCols_valid {cols : List (List Char)}
    (h : ∀ col ∈ cols,
      trimSpace col = [] ∨ validSortChar ((trimSpace col).headD ' ') = true) :
    processSortCols cols =
      Except.ok (((cols.map trimSpace).filter (fun t => !t.isEmpty)).map
        renderSortToken) := by
  induction cols with
  | nil => rfl
  | cons col rest ih =>
    have hrest : ∀ col ∈ rest,
        trimSpace col = [] ∨ validSortChar ((trimSpace col).headD ' ') = true :=
      fun x hx => h x (List.mem_cons_of_mem _ hx)
    cases htr : trimSpace col with
    | nil =>
      simp only [processSortCols, htr, List.map_cons, List.filter_cons,
        List.isEmpty_nil, Bool.not_true, ih hrest]
      rfl
    | cons c cs =>
      have hv : validSortChar c = true := by
        rcases h col (List.mem_cons_self col rest) with h1 | h1
        · rw [htr] at h1; cases h1
        · rw [htr] at h1; simpa using h1
      simp only [processSortCols, htr, if_pos hv, ih hrest, List.map_cons,
        List.filter_cons, List.isEmpty_cons, Bool.not_false, renderSortToken]
      simp [renderSortToken]

/-- C6: a valid sort string compiles exactly to the spec's rendering: the
comma-separated tokens are trimmed, empty tokens are skipped, a token
beginning with `-` is rendered as `"<remainder> desc"` and any other token
as `"<token> asc"`, joined with commas in input order. -/
theorem c6_valid_sort_rendering (s : String)
    (h : ∀ col ∈ splitComma s.data,
      trimSpace col = [] ∨ validSortChar ((trimSpace col).headD ' ') = true) :
    toSortParams (some s) = Except.ok (specSortRendering s) := by
  by_cases hs : s = ""
  · subst hs; rfl
  · simp only [toSortParams, if_neg hs, processSortCols_valid h, Except.map,
      specSortRendering]

theorem c6_witness :
    toSortParams (some "-year,title") = Except.ok (specSortRendering "-year,title") ∧
    specSortRendering "-year,title" = "year desc,title asc" :=
  ⟨c6_valid_sort_rendering "-year,title" (by decide), rfl⟩

theorem splitN2_snd_isSome {cs : List Char} (h : ':' ∈ cs) :
    ((splitN2 cs).2).isSome = true := by
  induction cs with
  | nil => simp at h
  | cons c rest ih =>
    by_cases hc : c = ':'
    · simp [splitN2, hc]
    · rcases List.mem_cons.mp h with h1 | h1
      · exact absurd h1.symm hc
      · simp only [splitN2, if_neg hc]
        exact ih h1

theorem parseFilterList_go_all_colon (op : String → String → Sqlizer)
    (l : List String) (h : ∀ t ∈ l, ':' ∈ t.data) :
    parseFilterList.go op l = some (l.map fun t =>
      op (String.mk (splitN2 t.data).1) (String.mk (((splitN2 t.data).2).getD []))) := by
  induction l with
  | nil => rfl
  | cons f rest ih =>
    have hf : ':' ∈ f.data := h f (List.mem_cons_self f rest)
    have hrest : ∀ t ∈ rest, ':' ∈ t.data :=
      fun x hx => h x (List.mem_cons_of_mem _ hx)
    cases hsp : (splitN2 f.data).2 with
    | none =>
      have := splitN2_snd_isSome hf
      rw [hsp] at this
      cases this
    | some snd =>
      have htok : parseFilterToken op f =
          some (op (String.mk (splitN2 f.data).1) (String.mk snd)) := by
        simp only [parseFilterToken]
        rw [show splitN2 f.data = ((splitN2 f.data).1, some snd) from
          Prod.ext rfl hsp]
      simp only [parseFilterList.go, htok, ih hrest, List.map_cons, hsp,
        Option.getD]

theorem parseFilterList_all_colon (op : String → String → Sqlizer)
    (fs : Option (List String)) (h : ∀ t ∈ fs.getD [], ':' ∈ t.data) :
    parseFilterList op fs = some (familyClauses op fs) := by
  cases fs with
  | none => rfl
  | some l =>
    simp only [parseFilterList, familyClauses, Option.getD]
    exact parseFilterList_go_all_colon op l (by simpa using h)

/-- C8: when every filter token contains a colon, the compiled filter set is
a pure conjunction — never squirrel's Or — whose clause order mirrors input
encounter order: equals, contains, starts-with, ends-with, greater-than,
greater-or-equal, less-than, less-or-equal, and within each family the
order of that family's list. -/
theorem c8_conjunction_order (params : GetTracksParams)
    (h1 : ∀ t ∈ params.FilterEquals.getD [], ':' ∈ t.data)
    (h2 : ∀ t ∈ params.FilterContains.getD [], ':' ∈ t.data)
    (h3 : ∀ t ∈ params.FilterStartsWith.getD [], ':' ∈ t.data)
    (h4 : ∀ t ∈ params.FilterEndsWith.getD [], ':' ∈ t.data)
    (h5 : ∀ t ∈ params.FilterGreaterThan.getD [], ':' ∈ t.data)
    (h6 : ∀ t ∈ params.FilterGreaterOrEqual.getD [], ':' ∈ t.data)
    (h7 : ∀ t ∈ params.FilterLessThan.getD [], ':' ∈ t.data)
    (h8 : ∀ t ∈ params.FilterLessOrEqual.getD [], ':' ∈ t.data) :
    ∃ qo, toQueryOptions params = some qo ∧
      qo.Filters =
        familyClauses opEquals params.FilterEquals ++
        familyClauses opContains params.FilterContains ++
        familyClauses opStartsWith params.FilterStartsWith ++
        familyClauses opEndsWith params.FilterEndsWith ++
        familyClauses opGreaterThan params.FilterGreaterThan ++
        familyClauses opGreaterOrEqual params.FilterGreaterOrEqual ++
        familyClauses opLessThan params.FilterLessThan ++
        familyClauses opLessOrEqual params.FilterLessOrEqual ∧
      ∀ c ∈ qo.Filters, c.isOr = false := by
  have hq : toQueryOptions params = some
      { Max := vOpt params.PageLimit
        Offset := vOpt params.PageOffset
        Filters :=
          familyClauses opEquals params.FilterEquals ++
          familyClauses opContains params.FilterContains ++
          familyClauses opStartsWith params.FilterStartsWith ++
          familyClauses opEndsWith params.FilterEndsWith ++
          familyClauses opGreaterThan params.FilterGreaterThan ++
          familyClauses opGreaterOrEqual params.FilterGreaterOrEqual ++
          familyClauses opLessThan params.FilterLessThan ++
          familyClauses opLessOrEqual params.FilterLessOrEqual
        Sort' := (toSortParams params.Sort').toOption.getD "" } := by
    simp only [toQueryOptions,
      parseFilterList_all_colon opEquals _ h1,
      parseFilterList_all_colon opContains _ h2,
      parseFilterList_all_colon opStartsWith _ h3,
      parseFilterList_all_colon opEndsWith _ h4,
      parseFilterList_all_colon opGreaterThan _ h5,
      parseFilterList_all_colon opGreaterOrEqual _ h6,
      parseFilterList_all_colon opLessThan _ h7,
      parseFilterList_all_colon opLessOrEqual _ h8,
      Option.some_bind]
  refine ⟨_, hq, rfl, ?_⟩
  intro c hc
  simp only [familyClauses, List.mem_append, List.mem_map] at hc
  rcases hc with ((((((hm | hm) | hm) | hm) | hm) | hm) | hm) | hm <;>
    · obtain ⟨t, -, rfl⟩ := hm
      rfl

theorem c8_witness :
    ∃ qo, toQueryOptions paramsFull = some qo ∧
      qo.Filters =
        familyClauses opEquals paramsFull.FilterEquals ++
        familyClauses opContains paramsFull.FilterContains ++
        familyClauses opStartsWith paramsFull.FilterStartsWith ++
        familyClauses opEndsWith paramsFull.FilterEndsWith ++
        familyClauses opGreaterThan paramsFull.FilterGreaterThan ++
        familyClauses opGreaterOrEqual paramsFull.FilterGreaterOrEqual ++
        familyClauses opLessThan paramsFull.FilterLessThan ++
        familyClauses opLessOrEqual paramsFull.FilterLessOrEqual ∧
      ∀ c ∈ qo.Filters, c.isOr = false :=
  c8_conjunction_order paramsFull (by decide) (by decide) (by decide)
    (by decide) (by decide) (by decide) (by decide) (by decide)

theorem lookupKey_cons (k a : String) (v : List String)
    (rest : List (String × List String)) :
    lookupKey k ((a, v) :: rest) = if k = a then some v else lookupKey k rest := rfl

theorem lookupKey_filterEntry_append {k nm : String} (v : Option (List String))
    (rest : List (String × List String)) (h : k ≠ nm) :
    lookupKey k (filterEntry nm v ++ rest) = lookupKey k rest := by
  cases v with
  | none => rfl
  | some l =>
    cases l with
    | nil => rfl
    | cons x xs => simp [filterEntry, lookupKey_cons, h]

theorem lookupKey_filterEntry_append_self (nm : String) (v : Option (List String))
    (rest : List (String × List String)) (h : lookupKey nm rest = none) :
    (lookupKey nm (filterEntry nm v ++ rest)).getD [] = v.getD [] := by
  cases v with
  | none => simp [filterEntry, h]
  | some l =>
    cases l with
    | nil => simp [filterEntry, h]
    | cons x xs => simp [filterEntry, lookupKey_cons]

theorem lookupKey_filterEntry_ne {k nm : String} (v : Option (List String))
    (h : k ≠ nm) : lookupKey k (filterEntry nm v) = none := by
  cases v with
  | none => rfl
  | some l =>
    cases l with
    | nil => rfl
    | cons x xs => simp [filterEntry, lookupKey, h]

theorem lookupKey_filterEntry_self_getD (nm : String) (v : Option (List String)) :
    (lookupKey nm (filterEntry nm v)).getD [] = v.getD [] := by
  cases v with
  | none => rfl
  | some l =>
    cases l with
    | nil => rfl
    | cons x xs => simp [filterEntry, lookupKey_cons]

set_option maxHeartbeats 1600000 in
/-- C1: every link `buildLink` generates carries exactly the original request
parameters besides the page window: the query values at any two page indices
agree on every key other than `page[offset]`; `page[limit]` holds the
original limit; each filter family key holds exactly that family's original
value list (absent families and empty lists contribute nothing); `sort` and
`include` hold the original strings verbatim when present and are absent
otherwise; no other key occurs; and the link itself is the resource path
followed by the URL-encoded (key-sorted, percent-escaped) query. -/
theorem c1_links_preserve_params (params : GetTracksParams) (name : String)
    (l p q : Int) (k : String) (hk : k ≠ "page[offset]") :
    lookupKey k (linkQueryValues params l p) =
      lookupKey k (linkQueryValues params l q) ∧
    lookupKey "page[limit]" (linkQueryValues params l p) = some [toString l] ∧
    (lookupKey "filter[equals]" (linkQueryValues params l p)).getD [] =
      params.FilterEquals.getD [] ∧
    (lookupKey "filter[contains]" (linkQueryValues params l p)).getD [] =
      params.FilterContains.getD [] ∧
    (lookupKey "filter[startsWith]" (linkQueryValues params l p)).getD [] =
      params.FilterStartsWith.getD [] ∧
    (lookupKey "filter[endsWith]" (linkQueryValues params l p)).getD [] =
      params.FilterEndsWith.getD [] ∧
    (lookupKey "filter[greaterThan]" (linkQueryValues params l p)).getD [] =
      params.FilterGreaterThan.getD [] ∧
    (lookupKey "filter[greaterOrEqual]" (linkQueryValues params l p)).getD [] =
      params.FilterGreaterOrEqual.getD [] ∧
    (lookupKey "filter[lessThan]" (linkQueryValues params l p)).getD [] =
      params.FilterLessThan.getD [] ∧
    (lookupKey "filter[lessOrEqual]" (linkQueryValues params l p)).getD [] =
      params.FilterLessOrEqual.getD [] ∧
    lookupKey "sort" (linkQueryValues params l p) =
      params.Sort'.map (fun s => [s]) ∧
    lookupKey "include" (linkQueryValues params l p) =
      params.Include.map (fun s => [s]) ∧
    (k ∉ linkQueryKeys → lookupKey k (linkQueryValues params l p) = none) ∧
    buildLink params name l p =
      name ++ "?" ++ encodeValues (linkQueryValues params l p) := by
  have hlen : 0 < (linkQueryValues params l p).length := by
    simp only [linkQueryValues, List.append_assoc, List.length_append,
      List.length_cons, List.length_nil]
    omega
  cases hS : params.Sort' <;> cases hI : params.Include <;>
  · refine ⟨?_, ?_, ?_, ?_, ?_, ?_, ?_, ?_, ?_, ?_, ?_, ?_, ?_, ?_⟩
    case _ =>
      simp [linkQueryValues, hS, hI, List.append_assoc, lookupKey, hk,
        lookupKey_filterEntry_append, lookupKey_filterEntry_append_self,
        lookupKey_filterEntry_ne, lookupKey_filterEntry_self_getD]
    case _ =>
      simp [linkQueryValues, hS, hI, List.append_assoc, lookupKey,
        lookupKey_filterEntry_append, lookupKey_filterEntry_append_self,
        lookupKey_filterEntry_ne, lookupKey_filterEntry_self_getD]
    case _ =>
      simp [linkQueryValues, hS, hI, List.append_assoc, lookupKey,
        lookupKey_filterEntry_append, lookupKey_filterEntry_append_self,
        lookupKey_filterEntry_ne, lookupKey_filterEntry_self_getD]
    case _ =>
      simp [linkQueryValues, hS, hI, List.append_assoc, lookupKey,
        lookupKey_filterEntry_append, lookupKey_filterEntry_append_self,
        lookupKey_filterEntry_ne, lookupKey_filterEntry_self_getD]
    case _ =>
      simp [linkQueryValues, hS, hI, List.append_assoc, lookupKey,
        lookupKey_filterEntry_append, lookupKey_filterEntry_append_self,
        lookupKey_filterEntry_ne, lookupKey_filterEntry_self_getD]
    case _ =>
      simp [linkQueryValues, hS, hI, List.append_assoc, lookupKey,
        lookupKey_filterEntry_append, lookupKey_filterEntry_append_self,
        lookupKey_filterEntry_ne, lookupKey_filterEntry_self_getD]
    case _ =>
      simp [linkQueryValues, hS, hI, List.append_assoc, lookupKey,
        lookupKey_filterEntry_append, lookupKey_filterEntry_append_self,
        lookupKey_filterEntry_ne, lookupKey_filterEntry_self_getD]
    case _ =>
      simp [linkQueryValues, hS, hI, List.append_assoc, lookupKey,
        lookupKey_filterEntry_append, lookupKey_filterEntry_append_self,
        lookupKey_filterEntry_ne, lookupKey_filterEntry_self_getD]
    case _ =>
      simp [linkQueryValues, hS, hI, List.append_assoc, lookupKey,
        lookupKey_filterEntry_append, lookupKey_filterEntry_append_self,
        lookupKey_filterEntry_ne, lookupKey_filterEntry_self_getD]
    case _ =>
      simp [linkQueryValues, hS, hI, List.append_assoc, lookupKey,
        lookupKey_filterEntry_append, lookupKey_filterEntry_append_self,
        lookupKey_filterEntry_ne, lookupKey_filterEntry_self_getD]
    case _ =>
      simp [linkQueryValues, hS, hI, List.append_assoc, lookupKey,
        lookupKey_filterEntry_append, lookupKey_filterEntry_append_self,
        lookupKey_filterEntry_ne, lookupKey_filterEntry_self_getD]
    case _ =>
      simp [linkQueryValues, hS, hI, List.append_assoc, lookupKey,
        lookupKey_filterEntry_append, lookupKey_filterEntry_append_self,
        lookupKey_filterEntry_ne, lookupKey_filterEntry_self_getD]
    case _ =>
      intro hk2
      simp only [linkQueryKeys, List.mem_cons, not_or] at hk2
      obtain ⟨h1, h2, h3, h4, h5, h6, h7, h8, h9, h10, h11, h12, -⟩ := hk2
      simp [linkQueryValues, hS, hI, List.append_assoc, lookupKey,
        h1, h2, h3, h4, h5, h6, h7, h8, h9, h10, h11, h12,
        lookupKey_filterEntry_append, lookupKey_filterEntry_ne]
    case _ =>
      simp only [buildLink, if_pos hlen]

set_option maxRecDepth 16384 in
theorem c1_witness :
    (lookupKey "sort" (linkQueryValues paramsFull 10 0) =
        lookupKey "sort" (linkQueryValues paramsFull 10 3) ∧
      lookupKey "page[limit]" (linkQueryValues paramsFull 10 0) =
        some [toString (10 : Int)] ∧
      (lookupKey "filter[equals]" (linkQueryValues paramsFull 10 0)).getD [] =
        paramsFull.FilterEquals.getD [] ∧
      (lookupKey "filter[contains]" (linkQueryValues paramsFull 10 0)).getD [] =
        paramsFull.FilterContains.getD [] ∧
      (lookupKey "filter[startsWith]" (linkQueryValues paramsFull 10 0)).getD [] =
        paramsFull.FilterStartsWith.getD [] ∧
      (lookupKey "filter[endsWith]" (linkQueryValues paramsFull 10 0)).getD [] =
        paramsFull.FilterEndsWith.getD [] ∧
      (lookupKey "filter[greaterThan]" (linkQueryValues paramsFull 10 0)).getD [] =
        paramsFull.FilterGreaterThan.getD [] ∧
      (lookupKey "filter[greaterOrEqual]" (linkQueryValues paramsFull 10 0)).getD [] =
        paramsFull.FilterGreaterOrEqual.getD [] ∧
      (lookupKey "filter[lessThan]" (linkQueryValues paramsFull 10 0)).getD [] =
        paramsFull.FilterLessThan.getD [] ∧
      (lookupKey "filter[lessOrEqual]" (linkQueryValues paramsFull 10 0)).getD [] =
        paramsFull.FilterLessOrEqual.getD [] ∧
      lookupKey "sort" (linkQueryValues paramsFull 10 0) =
        paramsFull.Sort'.map (fun s => [s]) ∧
      lookupKey "include" (linkQueryValues paramsFull 10 0) =
        paramsFull.Include.map (fun s => [s]) ∧
      ("sort" ∉ linkQueryKeys →
        lookupKey "sort" (linkQueryValues paramsFull 10 0) = none) ∧
      buildLink paramsFull "/api/tracks" 10 0 =
        "/api/tracks" ++ "?" ++ encodeValues (linkQueryValues paramsFull 10 0)) ∧
    buildLink paramsFull "/api/tracks" 10 0 =
      "/api/tracks?filter%5Bcontains%5D=title%3Alove&filter%5Bequals%5D=artist%3AQueen&include=albums&page%5Blimit%5D=10&page%5Boffset%5D=0&sort=-year" :=
  ⟨c1_links_preserve_params paramsFull "/api/tracks" 10 0 3 "sort" (by decide),
   by rfl⟩

theorem wrap32_eq_self {n : Int} (h1 : -2 ^ 31 ≤ n) (h2 : n < 2 ^ 31) :
    wrap32 n = n := by
  unfold wrap32
  omega

theorem wrap32_bounds (n : Int) : -2 ^ 31 ≤ wrap32 n ∧ wrap32 n < 2 ^ 31 := by
  unfold wrap32
  omega

theorem wrap32_sub_right (x y : Int) : wrap32 (wrap32 x - y) = wrap32 (x - y) := by
  unfold wrap32
  omega

theorem build_eq (t l o : Int) (params : GetTracksParams) (name : String)
    (hl : params.PageLimit = some l) (ho : params.PageOffset = some o)
    (hlne : l ≠ 0) :
    buildPaginationLinksAndMeta t params name =
      some
        ({ First := if 0 < wrap32 (Int.tdiv (i32sub (i32add t l) 1) l) then
             some (buildLink params name l 0) else none
           Last := if 0 < wrap32 (Int.tdiv (i32sub (i32add t l) 1) l) then
             some (buildLink params name l
               (i32sub (wrap32 (Int.tdiv (i32sub (i32add t l) 1) l)) 1))
           else none
           Next := if i32add (wrap32 (Int.tdiv o l)) 1 <
               wrap32 (Int.tdiv (i32sub (i32add t l) 1) l) then
             some (buildLink params name l (i32add (wrap32 (Int.tdiv o l)) 1))
           else none
           Prev := if 1 < i32add (wrap32 (Int.tdiv o l)) 1 then
             some (buildLink params name l
               (i32sub (i32add (wrap32 (Int.tdiv o l)) 1) 2))
           else none },
         { CurrentPage := some (i32add (wrap32 (Int.tdiv o l)) 1)
           TotalItems := some t
           TotalPages := some (wrap32 (Int.tdiv (i32sub (i32add t l) 1) l)) }) := by
  simp only [buildPaginationLinksAndMeta, hl, ho, i32div, if_neg hlne]

/-- C2 counterexample: at `totalItems = 2147483647`, `limit = 2` the `int32`
sum `totalItems + limit - 1` overflows, so the computed total page count is
`-1073741824`, which is neither the value of the exact integer expression
`(totalItems + limit - 1) / limit` nor the ceiling of `totalItems / limit`
(the ceiling `q` of `2147483647 / 2` must satisfy `2147483647 ≤ 2 * q`). -/
theorem c2_counterexample :
    (buildPaginationLinksAndMeta 2147483647 paramsLimit2 "tracks").map
        (fun r => r.2.TotalPages) = some (some (-1073741824)) ∧
    Int.tdiv (2147483647 + 2 - 1) 2 ≠ -1073741824 ∧
    ¬((2147483647 : Int) ≤ 2 * (-1073741824)) := by
  refine ⟨?_, by decide, by decide⟩
  rw [build_eq 2147483647 2 0 paramsLimit2 "tracks" rfl rfl (by decide)]
  rfl

/-- C2 amended: for `totalItems ≥ 0`, `limit > 0`, `offset ≥ 0` in `int32`
range and such that the intermediate `int32` expressions
`totalItems + limit - 1` and `offset / limit + 1` do not overflow, the
pagination computer returns `totalPages` computed as the integer expression
`(totalItems + limit - 1) / limit`, which is exactly `ceil(totalItems /
limit)` (characterised by `totalItems ≤ limit * totalPages` and
`limit * (totalPages - 1) < totalItems`), and `currentPage` computed as
`offset / limit + 1`, whose predecessor is exactly `floor(offset / limit)`
(characterised by `limit * (currentPage - 1) ≤ offset < limit *
currentPage`); without the overflow restriction the claim fails, see the
counterexample. -/
theorem c2_pagination_math (t l o : Int) (params : GetTracksParams)
    (name : String)
    (hl : params.PageLimit = some l) (ho : params.PageOffset = some o)
    (ht : 0 ≤ t) (hlpos : 0 < l) (hopos : 0 ≤ o)
    (hl32 : l < 2 ^ 31) (ho32 : o < 2 ^ 31)
    (hsum : t + l ≤ 2 ^ 31) (hcp : Int.tdiv o l + 1 < 2 ^ 31) :
    ∃ links meta, buildPaginationLinksAndMeta t params name = some (links, meta) ∧
      meta.TotalItems = some t ∧
      meta.TotalPages = some (Int.tdiv (t + l - 1) l) ∧
      t ≤ l * Int.tdiv (t + l - 1) l ∧
      l * (Int.tdiv (t + l - 1) l - 1) < t ∧
      meta.CurrentPage = some (Int.tdiv o l + 1) ∧
      l * (Int.tdiv o l + 1 - 1) ≤ o ∧
      o < l * (Int.tdiv o l + 1) := by
  have hlne : l ≠ 0 := by omega
  have hod : Int.tdiv o l = Int.ediv o l := Int.tdiv_eq_ediv hopos (le_of_lt hlpos)
  have hD : i32sub (i32add t l) 1 = t + l - 1 := by
    unfold i32add i32sub
    rw [wrap32_sub_right]
    exact wrap32_eq_self (by omega) (by omega)
  have htd : Int.tdiv (t + l - 1) l = Int.ediv (t + l - 1) l :=
    Int.tdiv_eq_ediv (by omega) (by omega)
  have h1 : l * Int.ediv (t + l - 1) l + Int.emod (t + l - 1) l = t + l - 1 :=
    Int.ediv_add_emod _ _
  have h2 : 0 ≤ Int.emod (t + l - 1) l := Int.emod_nonneg _ hlne
  have h3 : Int.emod (t + l - 1) l < l := Int.emod_lt_of_pos _ hlpos
  have htp_lb : 0 ≤ Int.ediv (t + l - 1) l := Int.ediv_nonneg (by omega) (by omega)
  have htp_ub : Int.ediv (t + l - 1) l ≤ t + l - 1 := Int.ediv_le_self _ (by omega)
  have hwtp : wrap32 (Int.tdiv (t + l - 1) l) = Int.tdiv (t + l - 1) l := by
    rw [htd]
    exact wrap32_eq_self (by omega) (by omega)
  have hodb1 : 0 ≤ Int.ediv o l := Int.ediv_nonneg hopos (le_of_lt hlpos)
  have hodb2 : Int.ediv o l ≤ o := Int.ediv_le_self _ hopos
  have hwod : wrap32 (Int.tdiv o l) = Int.tdiv o l := by
    rw [hod]
    exact wrap32_eq_self (by omega) (by omega)
  have hwcp : i32add (wrap32 (Int.tdiv o l)) 1 = Int.tdiv o l + 1 := by
    unfold i32add
    rw [hwod, hod]
    rw [hod] at hcp
    exact wrap32_eq_self (by omega) (by omega)
  have h4 : l * Int.ediv o l + Int.emod o l = o := Int.ediv_add_emod _ _
  have h5 : 0 ≤ Int.emod o l := Int.emod_nonneg _ hlne
  have h6 : Int.emod o l < l := Int.emod_lt_of_pos _ hlpos
  refine ⟨_, _, build_eq t l o params name hl ho hlne, rfl, ?_, ?_, ?_, ?_, ?_, ?_⟩
  · rw [hD, hwtp]
  · rw [htd]
    linarith
  · rw [htd]
    have hr : l * (Int.ediv (t + l - 1) l - 1) = l * Int.ediv (t + l - 1) l - l := by
      ring
    rw [hr]
    linarith
  · rw [hwcp]
  · rw [hod]
    have hr : l * (Int.ediv o l + 1 - 1) = l * Int.ediv o l := by ring
    rw [hr]
    linarith
  · rw [hod]
    have hr : l * (Int.ediv o l + 1) = l * Int.ediv o l + l := by ring
    rw [hr]
    linarith

theorem c2_witness :
    (∃ links meta,
      buildPaginationLinksAndMeta 25 paramsOffset20 "tracks" = some (links, meta) ∧
      meta.TotalItems = some 25 ∧
      meta.TotalPages = some (Int.tdiv (25 + 10 - 1) 10) ∧
      (25 : Int) ≤ 10 * Int.tdiv (25 + 10 - 1) 10 ∧
      (10 : Int) * (Int.tdiv (25 + 10 - 1) 10 - 1) < 25 ∧
      meta.CurrentPage = some (Int.tdiv 20 10 + 1) ∧
      (10 : Int) * (Int.tdiv 20 10 + 1 - 1) ≤ 20 ∧
      (20 : Int) < 10 * (Int.tdiv 20 10 + 1)) ∧
    (∃ links meta,
      buildPaginationLinksAndMeta 0 paramsOffset0 "tracks" = some (links, meta) ∧
      meta.TotalItems = some 0 ∧
      meta.TotalPages = some (Int.tdiv (0 + 10 - 1) 10) ∧
      (0 : Int) ≤ 10 * Int.tdiv (0 + 10 - 1) 10 ∧
      (10 : Int) * (Int.tdiv (0 + 10 - 1) 10 - 1) < 0 ∧
      meta.CurrentPage = some (Int.tdiv 0 10 + 1) ∧
      (10 : Int) * (Int.tdiv 0 10 + 1 - 1) ≤ 0 ∧
      (0 : Int) < 10 * (Int.tdiv 0 10 + 1)) ∧
    Int.tdiv (25 + 10 - 1) 10 = 3 ∧ Int.tdiv 20 10 + 1 = 3 ∧
    Int.tdiv (0 + 10 - 1) 10 = 0 := by
  refine ⟨?_, ?_, by decide, by decide, by decide⟩
  · exact c2_pagination_math 25 10 20 paramsOffset20 "tracks" rfl rfl
      (by decide) (by decide) (by decide) (by decide) (by decide) (by decide)
      (by decide)
  · exact c2_pagination_math 0 10 0 paramsOffset0 "tracks" rfl rfl
      (by decide) (by decide) (by decide) (by decide) (by decide) (by decide)
      (by decide)

/-- C3: for every request whose page parameters are present, with a positive
limit and all quantities in `int32` range: the first and last links are
present exactly when the computed `totalPages` is positive, the first
encoding offset `0` and the last encoding offset `(totalPages - 1) * limit`;
the next link is present exactly when `currentPage < totalPages`, encoding
offset `currentPage * limit`; and the prev link is present exactly when
`currentPage > 1`, encoding offset `(currentPage - 2) * limit`. -/
theorem c3_link_presence_offsets (t l o : Int) (params : GetTracksParams)
    (name : String) (hl : params.PageLimit = some l)
    (ho : params.PageOffset = some o)
    (ht : 0 ≤ t) (ht32 : t < 2 ^ 31) (hlpos : 0 < l) (hl32 : l < 2 ^ 31)
    (hopos : 0 ≤ o) (ho32 : o < 2 ^ 31) :
    ∃ links meta tp cp,
      buildPaginationLinksAndMeta t params name = some (links, meta) ∧
      meta.TotalPages = some tp ∧
      meta.CurrentPage = some cp ∧
      (links.First = if 0 < tp then some (buildLink params name l 0) else none) ∧
      (links.Last =
        if 0 < tp then some (buildLink params name l (tp - 1)) else none) ∧
      (links.Next =
        if cp < tp then some (buildLink params name l cp) else none) ∧
      (links.Prev =
        if 1 < cp then some (buildLink params name l (cp - 2)) else none) ∧
      lookupKey "page[offset]" (linkQueryValues params l 0) =
        some [toString (0 : Int)] ∧
      (0 < tp → lookupKey "page[offset]" (linkQueryValues params l (tp - 1)) =
        some [toString ((tp - 1) * l)]) ∧
      (cp < tp → lookupKey "page[offset]" (linkQueryValues params l cp) =
        some [toString (cp * l)]) ∧
      (1 < cp → lookupKey "page[offset]" (linkQueryValues params l (cp - 2)) =
        some [toString ((cp - 2) * l)]) := by
  have hlne : l ≠ 0 := by omega
  set tpv := wrap32 (Int.tdiv (i32sub (i32add t l) 1) l) with htpv_def
  set cpv := i32add (wrap32 (Int.tdiv o l)) 1 with hcpv_def
  have htpb : -2 ^ 31 ≤ tpv ∧ tpv < 2 ^ 31 := htpv_def ▸ wrap32_bounds _
  have hcpb : -2 ^ 31 ≤ cpv ∧ cpv < 2 ^ 31 := by
    rw [hcpv_def]
    unfold i32add
    exact wrap32_bounds _
  have hod : Int.tdiv o l = Int.ediv o l := Int.tdiv_eq_ediv hopos (le_of_lt hlpos)
  have hodb1 : 0 ≤ Int.ediv o l := Int.ediv_nonneg hopos (le_of_lt hlpos)
  have hodb2 : Int.ediv o l ≤ o := Int.ediv_le_self _ hopos
  have h4 : l * Int.ediv o l + Int.emod o l = o := Int.ediv_add_emod _ _
  have h5 : 0 ≤ Int.emod o l := Int.emod_nonneg _ hlne
  have h6 : Int.emod o l < l := Int.emod_lt_of_pos _ hlpos
  have hwod : wrap32 (Int.ediv o l) = Int.ediv o l :=
    wrap32_eq_self (by omega) (by omega)
  have hcp_cases : (cpv = Int.ediv o l + 1 ∧ 1 ≤ cpv) ∨ (cpv = -2 ^ 31 ∧ l = 1) := by
    by_cases hlt : Int.ediv o l + 1 < 2 ^ 31
    · left
      have hcpe : cpv = Int.ediv o l + 1 := by
        rw [hcpv_def]
        unfold i32add
        rw [hod, hwod]
        exact wrap32_eq_self (by omega) (by omega)
      exact ⟨hcpe, by omega⟩
    · right
      have hodeq : Int.ediv o l = 2 ^ 31 - 1 := by omega
      have hl1 : l = 1 := by
        by_contra hne1
        have h2l : (2 : Int) ≤ l := by omega
        have hml : 2 * Int.ediv o l ≤ l * Int.ediv o l :=
          mul_le_mul_of_nonneg_right h2l hodb1
        rw [hodeq] at hml h4
        linarith
      refine ⟨?_, hl1⟩
      rw [hcpv_def]
      unfold i32add
      rw [hod, hwod, hodeq]
      unfold wrap32
      omega
  have htpA : t + l ≤ 2 ^ 31 →
      tpv = Int.ediv (t + l - 1) l ∧ l * tpv ≤ t + l - 1 ∧ t ≤ l * tpv := by
    intro hsum
    have hD : i32sub (i32add t l) 1 = t + l - 1 := by
      unfold i32add i32sub
      rw [wrap32_sub_right]
      exact wrap32_eq_self (by omega) (by omega)
    have h1 : l * Int.ediv (t + l - 1) l + Int.emod (t + l - 1) l = t + l - 1 :=
      Int.ediv_add_emod _ _
    have h2 : 0 ≤ Int.emod (t + l - 1) l := Int.emod_nonneg _ hlne
    have h3 : Int.emod (t + l - 1) l < l := Int.emod_lt_of_pos _ hlpos
    have htp_lb : 0 ≤ Int.ediv (t + l - 1) l := Int.ediv_nonneg (by omega) (by omega)
    have htp_ub : Int.ediv (t + l - 1) l ≤ t + l - 1 := Int.ediv_le_self _ (by omega)
    have htd : Int.tdiv (t + l - 1) l = Int.ediv (t + l - 1) l :=
      Int.tdiv_eq_ediv (by omega) (by omega)
    have htpe : tpv = Int.ediv (t + l - 1) l := by
      rw [htpv_def, hD, htd]
      exact wrap32_eq_self (by omega) (by omega)
    refine ⟨htpe, by rw [htpe]; linarith, by rw [htpe]; linarith⟩
  have htpB : 2 ^ 31 < t + l → tpv ≤ 0 := by
    intro hgt
    have hD : i32sub (i32add t l) 1 = t + l - 1 - 2 ^ 32 := by
      unfold i32add i32sub
      rw [wrap32_sub_right]
      unfold wrap32
      omega
    have hneg : Int.tdiv (t + l - 1 - 2 ^ 32) l =
        -Int.tdiv (2 ^ 32 - (t + l - 1)) l := by
      rw [show t + l - 1 - 2 ^ 32 = -(2 ^ 32 - (t + l - 1)) by ring,
        Int.neg_tdiv]
    have hpos_td : Int.tdiv (2 ^ 32 - (t + l - 1)) l =
        Int.ediv (2 ^ 32 - (t + l - 1)) l := Int.tdiv_eq_ediv (by omega) (by omega)
    have hb1 : 0 ≤ Int.ediv (2 ^ 32 - (t + l - 1)) l :=
      Int.ediv_nonneg (by omega) (by omega)
    have hb2 : Int.ediv (2 ^ 32 - (t + l - 1)) l ≤ 2 ^ 32 - (t + l - 1) :=
      Int.ediv_le_self _ (by omega)
    rw [htpv_def, hD, hneg, hpos_td, wrap32_eq_self (by omega) (by omega)]
    omega
  have hlook : ∀ page : Int,
      lookupKey "page[offset]" (linkQueryValues params l page) =
        some [toString (i32mul page l)] := by
    intro page
    simp [linkQueryValues, lookupKey]
  refine ⟨_, _, tpv, cpv,
    build_eq t l o params name hl ho hlne, rfl, rfl, rfl, ?_, rfl, ?_, ?_, ?_,
    ?_, ?_⟩
  · by_cases h : 0 < tpv
    · have hs : i32sub tpv 1 = tpv - 1 := by
        unfold i32sub
        exact wrap32_eq_self (by omega) (by omega)
      simp only [if_pos h, hs]
    · simp only [if_neg h]
  · by_cases h : 1 < cpv
    · have hs : i32sub cpv 2 = cpv - 2 := by
        unfold i32sub
        exact wrap32_eq_self (by omega) (by omega)
      simp only [if_pos h, hs]
    · simp only [if_neg h]
  · rw [hlook]
    have hz : i32mul 0 l = 0 := by
      unfold i32mul
      rw [zero_mul]
      exact wrap32_eq_self (by norm_num) (by norm_num)
    rw [hz]
  · intro h
    rw [hlook]
    rcases le_or_lt (t + l) (2 ^ 31) with hsum | hsum
    · obtain ⟨htpe, hub, hlb⟩ := htpA hsum
      have hr : (tpv - 1) * l = l * tpv - l := by ring
      have hg1 : (tpv - 1) * l < 2 ^ 31 := by
        rw [hr]
        linarith
      have hg0 : 0 ≤ (tpv - 1) * l := mul_nonneg (by omega) (by omega)
      have hm : i32mul (tpv - 1) l = (tpv - 1) * l := by
        unfold i32mul
        exact wrap32_eq_self (by omega) (by omega)
      rw [hm]
    · exact absurd h (by have := htpB hsum; omega)
  · intro h
    rw [hlook]
    rcases hcp_cases with ⟨hcpe, hcp1⟩ | ⟨hcpe, hl1⟩
    · rcases le_or_lt (t + l) (2 ^ 31) with hsum | hsum
      · obtain ⟨htpe, hub, hlb⟩ := htpA hsum
        have hle : cpv ≤ tpv - 1 := by omega
        have hp1 : l * cpv ≤ l * (tpv - 1) :=
          mul_le_mul_of_nonneg_left hle (by omega)
        have hp2 : l * (tpv - 1) = l * tpv - l := by ring
        have hco : cpv * l = l * cpv := by ring
        have hg1 : cpv * l < 2 ^ 31 := by
          rw [hco]
          linarith
        have hg0 : 0 ≤ cpv * l := mul_nonneg (by omega) (by omega)
        have hm : i32mul cpv l = cpv * l := by
          unfold i32mul
          exact wrap32_eq_self (by omega) (by omega)
        rw [hm]
      · exact absurd h (by have := htpB hsum; omega)
    · have hme : cpv * l = -2 ^ 31 := by
        rw [hcpe, hl1]
        ring
      have hm : i32mul cpv l = cpv * l := by
        unfold i32mul
        rw [hme]
        exact wrap32_eq_self (by omega) (by omega)
      rw [hm]
  · intro h
    rw [hlook]
    rcases hcp_cases with ⟨hcpe, -⟩ | ⟨hcpe, -⟩
    · have hod1 : 1 ≤ Int.ediv o l := by omega
      have hr : (cpv - 2) * l = l * Int.ediv o l - l := by
        rw [hcpe]
        ring
      have hg1 : (cpv - 2) * l < 2 ^ 31 := by
        rw [hr]
        linarith
      have hg0 : 0 ≤ (cpv - 2) * l := mul_nonneg (by omega) (by omega)
      have hm : i32mul (cpv - 2) l = (cpv - 2) * l := by
        unfold i32mul
        exact wrap32_eq_self (by omega) (by omega)
      rw [hm]
    · exact absurd h (by omega)

theorem c3_witness :
    (∃ links meta tp cp,
      buildPaginationLinksAndMeta 0 paramsOffset0 "tracks" = some (links, meta) ∧
      meta.TotalPages = some tp ∧
      meta.CurrentPage = some cp ∧
      (links.First =
        if 0 < tp then some (buildLink paramsOffset0 "tracks" 10 0) else none) ∧
      (links.Last =
        if 0 < tp then some (buildLink paramsOffset0 "tracks" 10 (tp - 1))
        else none) ∧
      (links.Next =
        if cp < tp then some (buildLink paramsOffset0 "tracks" 10 cp) else none) ∧
      (links.Prev =
        if 1 < cp then some (buildLink paramsOffset0 "tracks" 10 (cp - 2))
        else none) ∧
      lookupKey "page[offset]" (linkQueryValues paramsOffset0 10 0) =
        some [toString (0 : Int)] ∧
      (0 < tp →
        lookupKey "page[offset]" (linkQueryValues paramsOffset0 10 (tp - 1)) =
          some [toString ((tp - 1) * 10)]) ∧
      (cp < tp →
        lookupKey "page[offset]" (linkQueryValues paramsOffset0 10 cp) =
          some [toString (cp * 10)]) ∧
      (1 < cp →
        lookupKey "page[offset]" (linkQueryValues paramsOffset0 10 (cp - 2)) =
          some [toString ((cp - 2) * 10)])) ∧
    (buildPaginationLinksAndMeta 0 paramsOffset0 "tracks").map
      (fun r => (r.1.First, r.1.Last, r.1.Next, r.1.Prev, r.2.CurrentPage,
        r.2.TotalPages)) =
      some (none, none, none, none, some 1, some 0) := by
  refine ⟨?_, ?_⟩
  · exact c3_link_presence_offsets 0 10 0 paramsOffset0 "tracks" rfl rfl
      (by decide) (by decide) (by decide) (by decide) (by decide) (by decide)
  · rw [build_eq 0 10 0 paramsOffset0 "tracks" rfl rfl (by decide)]
    rfl

end NavidromeAPI
